import Mathlib

/-!
Shallow embedding of the Zen Counter sentence-selection engine
(src/App.tsx) and of the daily-stats service
(src/services/supabaseService.ts).

Randomness: every call to Math.random() is modelled by reading a fixed
stream rho : Nat -> Nat at a cursor carried in the state;
Math.floor(Math.random() * b) becomes rho c % b. Theorems quantify over
rho, so they hold for every sequence of random draws.
-/

universe u

/-- A sentence as App.tsx uses it: an id, a text and a list of category
ids. Ids are opaque identifiers, modelled as naturals. -/
structure Sentence where
  id : Nat
  text : String
  categoryIds : List Nat
deriving DecidableEq, Repr

/-- The session focus (sessionFocusId): the distinguished value meaning
every sentence is eligible, or a single category id. -/
inductive Focus where
  | all : Focus
  | cat : Nat → Focus
deriving DecidableEq, Repr

/-- The filter of getNextSentence:
focusId === the all marker, or (s.categoryIds || []).includes(focusId). -/
def matchesFocus (f : Focus) (s : Sentence) : Bool :=
  match f with
  | .all => true
  | .cat c => s.categoryIds.contains c

/-- Selector state: the shuffle bag (the sentenceQueue ref), the id of the
most recently shown sentence (the lastShownIdRef) and the random-stream
cursor. -/
structure SelState where
  queue : List Sentence
  lastShownId : Option Nat
  ctr : Nat
deriving DecidableEq, Repr

/-- Exchange the elements at positions i and j, as the destructuring
assignment [a[i], a[j]] = [a[j], a[i]] does; an out-of-range index leaves
the list unchanged. -/
def swapL {α : Type u} (l : List α) (i j : Nat) : List α :=
  match l[i]?, l[j]? with
  | some a, some b => (l.set i b).set j a
  | _, _ => l

/-- The in-place Fisher-Yates loop of getNextSentence:
for (let i = length - 1; i > 0; i--) with j = floor(random * (i + 1)).
The first argument after the stream is the cursor, the second is the loop
index i. Returns the shuffled list and the advanced cursor. -/
def fyAux (ρ : Nat → Nat) : Nat → Nat → List Sentence → List Sentence × Nat
  | c, 0, l => (l, c)
  | c, i+1, l => fyAux ρ (c+1) i (swapL l (i+1) (ρ c % (i+2)))

/-- The Fisher-Yates shuffle of getNextSentence, starting at
i = length - 1. -/
def fisherYates (ρ : Nat → Nat) (c : Nat) (l : List Sentence) :
    List Sentence × Nat :=
  fyAux ρ c (l.length - 1) l

/-- The boundary check of getNextSentence: when a previous sentence is
recorded and the bag has more than one element, and the element that will
be popped next (the last one) carries lastShownId, swap it with position
0 to break the immediate repeat. -/
def antiRepeatSwap (lastId : Option Nat) (q : List Sentence) :
    List Sentence :=
  match lastId with
  | none => q
  | some lid =>
    if 1 < q.length then
      match q.getLast? with
      | some nextUp =>
        if nextUp.id = lid then swapL q (q.length - 1) 0 else q
      | none => q
    else q

/-- Refill the bag: copy relevant, shuffle it, then apply the
anti-repeat boundary swap. -/
def refillQueue (ρ : Nat → Nat) (c : Nat) (lastId : Option Nat)
    (relevant : List Sentence) : List Sentence × Nat :=
  let s := fisherYates ρ c relevant
  (antiRepeatSwap lastId s.1, s.2)

/-- The pop-and-validate loop of getNextSentence, acting on the REVERSED
queue (JS Array.pop removes the last element, which is the head of the
reversal): pop one element; while it has no id match in relevant, pop
again; signal none when the queue runs out (the source then recurses,
with the queue empty at that point). -/
def popLoop (relevant : List Sentence) :
    List Sentence → Option Sentence × List Sentence
  | [] => (none, [])
  | x :: rest =>
    if relevant.any (fun r => r.id = x.id) then (some x, rest)
    else popLoop relevant rest

/-- Draw one validated sentence from the end of the queue
(pop; validate against relevant; keep popping on a stale entry). -/
def drawValid (relevant q : List Sentence) :
    Option Sentence × List Sentence :=
  let r := popLoop relevant q.reverse
  (r.1, r.2.reverse)

/-- getNextSentence (src/App.tsx lines 398 to 446): filter by the focus,
return none on an empty result, short-circuit a single match, otherwise
refill the bag when it is empty and pop a validated element, recording
lastShownId on success. The recursion the source performs when the queue
runs out of valid entries is unfolded once: at the point of the recursive
call the queue is empty, so the callee refills and draws from the fresh
bag, and a fresh bag built from two or more relevant sentences always
validates, so depth two suffices. -/
def getNextSentence (ρ : Nat → Nat) (sents : List Sentence) (f : Focus)
    (st : SelState) : Option Sentence × SelState :=
  let relevant := sents.filter (matchesFocus f)
  if relevant.length = 0 then (none, st)
  else if relevant.length = 1 then (relevant.head?, st)
  else
    let q0 :=
      if st.queue.isEmpty then refillQueue ρ st.ctr st.lastShownId relevant
      else (st.queue, st.ctr)
    match drawValid relevant q0.1 with
    | (some s, q1) => (some s, ⟨q1, some s.id, q0.2⟩)
    | (none, _) =>
      let q2 := refillQueue ρ q0.2 st.lastShownId relevant
      match drawValid relevant q2.1 with
      | (some s, q3) => (some s, ⟨q3, some s.id, q2.2⟩)
      | (none, q3) => (none, ⟨q3, st.lastShownId, q2.2⟩)

/-- Iterate getNextSentence, collecting the successful results in call
order and threading the selector state. -/
def selectN (ρ : Nat → Nat) (sents : List Sentence) (f : Focus) :
    Nat → SelState → List Sentence × SelState
  | 0, st => ([], st)
  | n+1, st =>
    let r := getNextSentence ρ sents f st
    let rest := selectN ρ sents f n r.2
    (match r.1 with | some s => s :: rest.1 | none => rest.1, rest.2)

/-- The cycle-length configuration (countdownConfig): a fixed number or
the random-per-cycle marker. -/
inductive Config where
  | fixed : Int → Config
  | rnd : Config
deriving DecidableEq, Repr

/-- The counter mode (counterMode): count down or count up. -/
inductive Mode where
  | up : Mode
  | down : Mode
deriving DecidableEq, Repr

/-- The session state of the App component that the claims touch.
currentNumber and randomLimit are JS numbers, modelled as integers;
statsLog records, oldest first, the sentence ids passed to
supabaseService.incrementStat (the fire-and-forget stats increments). -/
structure AppState where
  currentNumber : Int
  randomLimit : Int
  countdownConfig : Config
  currentSentence : Option Sentence
  counterMode : Mode
  isAnimating : Bool
  showStats : Bool
  showManage : Bool
  sessionFocusId : Focus
  sel : SelState
  sentences : List Sentence
  statsLog : List Nat
deriving DecidableEq, Repr

/-- getNextLimit (src/App.tsx lines 259 to 265): the random configuration
draws Math.floor(Math.random() * 7) + 1; a positive fixed configuration is
used as is; anything else is normalized to 3. Returns the limit and the
advanced random cursor. -/
def getNextLimit (ρ : Nat → Nat) (c : Nat) (cfg : Config) : Int × Nat :=
  match cfg with
  | .rnd => (((ρ c % 7 : Nat) : Int) + 1, c + 1)
  | .fixed n => (if 0 < n then n else 3, c)

/-- The synchronous part of handleInteraction (src/App.tsx lines 500 to
519): check the in-memory animation lock and the overlays, record one
stats increment for the sentence currently on screen, then set the lock
before any asynchronous work. A blocked tick leaves the state unchanged
(dropped, not queued). -/
def tickSync (st : AppState) : AppState :=
  if st.isAnimating || st.showStats || st.showManage then st
  else
    { st with
      statsLog :=
        match st.currentSentence with
        | some s => st.statsLog ++ [s.id]
        | none => st.statsLog,
      isAnimating := true }

/-- The deferred body of handleInteraction (the setTimeout callback,
src/App.tsx lines 520 to 541): in countdown mode a value above 1 is
decremented, a value at or below 1 is cycle-terminal and performs the
reset inline (new limit, new sentence, currentNumber set to the new limit
rather than 0); count-up mode increments without bound. The lock is
released at the end. -/
def timeoutBody (ρ : Nat → Nat) (st : AppState) : AppState :=
  match st.counterMode with
  | .down =>
    if st.currentNumber ≤ 1 then
      let nl := getNextLimit ρ st.sel.ctr st.countdownConfig
      let r := getNextSentence ρ st.sentences st.sessionFocusId
        { st.sel with ctr := nl.2 }
      { st with randomLimit := nl.1, currentSentence := r.1,
                currentNumber := nl.1, sel := r.2, isAnimating := false }
    else { st with currentNumber := st.currentNumber - 1,
                   isAnimating := false }
  | .up => { st with currentNumber := st.currentNumber + 1,
                     isAnimating := false }

/-- One full interaction: the synchronous gate followed, when the tick was
accepted, by the timeout body (the next event arriving after the cooldown
elapsed). A blocked tick schedules nothing. -/
def tick (ρ : Nat → Nat) (st : AppState) : AppState :=
  if st.isAnimating || st.showStats || st.showManage then st
  else timeoutBody ρ (tickSync st)

/-- resetCycle (src/App.tsx lines 449 to 456): draw a new limit, ask the
selector for a new sentence, commit both, and seed currentNumber with the
new limit in countdown mode or 1 in count-up mode. -/
def resetCycle (ρ : Nat → Nat) (mode : Mode) (f : Focus)
    (st : AppState) : AppState :=
  let nl := getNextLimit ρ st.sel.ctr st.countdownConfig
  let r := getNextSentence ρ st.sentences f { st.sel with ctr := nl.2 }
  { st with randomLimit := nl.1, currentSentence := r.1, sel := r.2,
            currentNumber := if mode = .down then nl.1 else 1 }

/-- handleFocusChange (src/App.tsx lines 493 to 498): selecting the
already-active filter is a no-op; otherwise the focus is committed and
the bag is cleared to enforce the new category constraints. -/
def handleFocusChange (st : AppState) (id : Focus) : AppState :=
  if id = st.sessionFocusId then st
  else { st with sessionFocusId := id,
                 sel := { st.sel with queue := [] } }

/-- The countdownConfig effect (src/App.tsx lines 477 to 488, source
comment: Config Change, Update Limit ONLY, Preserve Flow): recompute the
limit from the new configuration with the same normalization as
getNextLimit and reseed the displayed number, leaving the sentence, the
bag, lastShownId and the animation flag untouched. -/
def onConfigChange (ρ : Nat → Nat) (st : AppState) (newCfg : Config) :
    AppState :=
  let st0 := { st with countdownConfig := newCfg }
  match newCfg with
  | .rnd =>
    let nl : Int := ((ρ st0.sel.ctr % 7 : Nat) : Int) + 1
    { st0 with randomLimit := nl,
               currentNumber := if st0.counterMode = .down then nl else 1,
               sel := { st0.sel with ctr := st0.sel.ctr + 1 } }
  | .fixed n =>
    let nl : Int := if 0 < n then n else 3
    { st0 with randomLimit := nl,
               currentNumber := if st0.counterMode = .down then nl else 1 }

/-- Iterate tick. -/
def tickN (ρ : Nat → Nat) : Nat → AppState → AppState
  | 0, st => st
  | n+1, st => tickN ρ n (tick ρ st)

/-- A daily_stats row id: either a real sentence id or the distinguished
GLOBAL_TIME_TRACKER sentinel, a string id no sentence id collides with. -/
inductive StatId where
  | sent : Nat → StatId
  | timeTracker : StatId
deriving DecidableEq, Repr

/-- One row of the daily_stats table, already restricted to the current
user. -/
structure StatRow where
  date : String
  sentence_id : StatId
  count : Nat
deriving DecidableEq, Repr

/-- getDailyStats (src/services/supabaseService.ts lines 353 to 372):
select every daily_stats row of the current user whose date is today.
No sentinel filtering happens here. -/
def getDailyStats (today : String) (db : List StatRow) : List StatRow :=
  db.filter (fun r => r.date = today)

/-- The filter handleStatsEvent applies inside subscribeToChanges
(src/services/supabaseService.ts lines 165 to 176):
stats.filter(s => s.sentence_id !== TIME_TRACKER_ID). -/
def cleanStats (stats : List StatRow) : List StatRow :=
  stats.filter (fun r => r.sentence_id ≠ StatId.timeTracker)

/-- The user-facing Todays Breakdown list (statsList, src/App.tsx lines
723 to 734): one row per dailyStats entry carrying the row id, the
sentence text (or Unknown when no sentence matches) and the count. The
source then sorts by descending count, which only reorders rows and
cannot add or remove the sentinel, so the sort is omitted here. -/
def statsList (dailyStats : List StatRow) (allSentences : List Sentence) :
    List (StatId × String × Nat) :=
  dailyStats.map (fun stat =>
    (stat.sentence_id,
     match allSentences.find? (fun sent => StatId.sent sent.id = stat.sentence_id) with
     | some s => s.text
     | none => "Unknown",
     stat.count))

/-- The all-zero random stream, used for concrete witnesses. -/
def rhoZ : Nat → Nat := fun _ => 0

/-- Concrete sentence used in witnesses. -/
def sentA : Sentence := ⟨1, "a", []⟩

/-- Concrete sentence used in witnesses. -/
def sentB : Sentence := ⟨2, "b", [5]⟩

/-- Concrete sentence used in witnesses. -/
def sentC : Sentence := ⟨3, "c", []⟩

/-- A concrete mid-cycle session state: sentence A on screen, sentence B
still in the bag, a transition in flight. -/
def stC6 : AppState :=
  { currentNumber := 2
    randomLimit := 3
    countdownConfig := Config.fixed 3
    currentSentence := some sentA
    counterMode := Mode.down
    isAnimating := true
    showStats := false
    showManage := false
    sessionFocusId := Focus.all
    sel := { queue := [sentB], lastShownId := some 1, ctr := 0 }
    sentences := [sentA, sentB]
    statsLog := [] }

/-! Helper lemmas about the swap and the shuffle. The tilde below is the
List.Perm relation. -/

open List

theorem cons_set_perm {α : Type u} :
    ∀ (l : List α) (i : Nat) (h : i < l.length) (x : α),
      l[i] :: l.set i x ~ x :: l := by
  intro l
  induction l with
  | nil => intro i h x; simp at h
  | cons a t ih =>
    intro i h x
    match i with
    | 0 => simpa using List.Perm.swap x a t
    | k+1 =>
      have hk : k < t.length := by simpa using h
      have e1 : (a :: t)[k+1] = t[k] := by simp
      have e2 : (a :: t).set (k+1) x = a :: t.set k x := by simp
      rw [e1, e2]
      calc t[k] :: a :: t.set k x
          ~ a :: t[k] :: t.set k x := List.Perm.swap a (t[k]) (t.set k x)
        _ ~ a :: (x :: t) := (ih k hk x).cons a
        _ ~ x :: a :: t := List.Perm.swap x a t

theorem set_set_swap_perm {α : Type u} :
    ∀ (l : List α) (i j : Nat) (hi : i < l.length) (hj : j < l.length),
      (l.set i l[j]).set j l[i] ~ l := by
  intro l
  induction l with
  | nil => intro i j hi _; simp at hi
  | cons a t ih =>
    intro i j hi hj
    match i, j with
    | 0, 0 => simp
    | 0, m+1 =>
      have hm : m < t.length := by simpa using hj
      simpa using cons_set_perm t m hm a
    | k+1, 0 =>
      have hk : k < t.length := by simpa using hi
      simpa using cons_set_perm t k hk a
    | k+1, m+1 =>
      have hk : k < t.length := by simpa using hi
      have hm : m < t.length := by simpa using hj
      simpa using (ih k m hk hm).cons a

theorem swapL_perm {α : Type u} (l : List α) (i j : Nat) :
    swapL l i j ~ l := by
  by_cases hi : i < l.length
  · by_cases hj : j < l.length
    · have e : swapL l i j = (l.set i l[j]).set j l[i] := by
        simp [swapL, List.getElem?_eq_getElem, hi, hj]
      rw [e]
      exact set_set_swap_perm l i j hi hj
    · have e : swapL l i j = l := by
        simp [swapL, List.getElem?_eq_none (Nat.le_of_not_lt hj)]
      rw [e]
  · have e : swapL l i j = l := by
      simp [swapL, List.getElem?_eq_none (Nat.le_of_not_lt hi)]
    rw [e]

theorem fyAux_fst_perm (ρ : Nat → Nat) :
    ∀ (i c : Nat) (l : List Sentence), (fyAux ρ c i l).1 ~ l := by
  intro i
  induction i with
  | zero => intro c l; exact List.Perm.refl l
  | succ k ih =>
    intro c l
    exact (ih (c+1) (swapL l (k+1) (ρ c % (k+2)))).trans
      (swapL_perm l (k+1) (ρ c % (k+2)))

theorem fisherYates_fst_perm (ρ : Nat → Nat) (c : Nat) (l : List Sentence) :
    (fisherYates ρ c l).1 ~ l :=
  fyAux_fst_perm ρ (l.length - 1) c l

theorem antiRepeatSwap_perm (lastId : Option Nat) (q : List Sentence) :
    antiRepeatSwap lastId q ~ q := by
  unfold antiRepeatSwap
  match lastId with
  | none => exact List.Perm.refl q
  | some lid =>
    by_cases h : 1 < q.length
    · simp only [if_pos h]
      match q.getLast? with
      | some nextUp =>
        by_cases hid : nextUp.id = lid
        · simp only [if_pos hid]
          exact swapL_perm q (q.length - 1) 0
        · simp only [if_neg hid]
          exact List.Perm.refl q
      | none => exact List.Perm.refl q
    · simp only [if_neg h]
      exact List.Perm.refl q

theorem refillQueue_fst_perm (ρ : Nat → Nat) (c : Nat) (lastId : Option Nat)
    (relevant : List Sentence) : (refillQueue ρ c lastId relevant).1 ~ relevant := by
  unfold refillQueue
  exact (antiRepeatSwap_perm lastId (fisherYates ρ c relevant).1).trans
    (fisherYates_fst_perm ρ c relevant)

theorem popLoop_fst_mem (relevant : List Sentence) :
    ∀ (l : List Sentence) (x : Sentence),
      (popLoop relevant l).1 = some x → x ∈ l := by
  intro l
  induction l with
  | nil => intro x h; simp [popLoop] at h
  | cons a rest ih =>
    intro x h
    by_cases hv : relevant.any (fun r => r.id = a.id) = true
    · simp only [popLoop, if_pos hv] at h
      simp at h
      simp [h]
    · simp only [popLoop, if_neg hv] at h
      exact List.mem_cons_of_mem a (ih x h)

theorem popLoop_snd_mem (relevant : List Sentence) :
    ∀ (l : List Sentence) (y : Sentence),
      y ∈ (popLoop relevant l).2 → y ∈ l := by
  intro l
  induction l with
  | nil => intro y h; simp [popLoop] at h
  | cons a rest ih =>
    intro y h
    by_cases hv : relevant.any (fun r => r.id = a.id) = true
    · simp only [popLoop, if_pos hv] at h
      exact List.mem_cons_of_mem a h
    · simp only [popLoop, if_neg hv] at h
      exact List.mem_cons_of_mem a (ih y h)

theorem drawValid_concat (relevant q0 : List Sentence) (x : Sentence)
    (hx : relevant.any (fun r => r.id = x.id) = true) :
    drawValid relevant (q0 ++ [x]) = (some x, q0) := by
  unfold drawValid
  have hrev : (q0 ++ [x]).reverse = x :: q0.reverse := by simp
  rw [hrev]
  simp only [popLoop, if_pos hx, List.reverse_reverse]

theorem drawValid_fst_mem (relevant q : List Sentence) (x : Sentence)
    (h : (drawValid relevant q).1 = some x) : x ∈ q := by
  unfold drawValid at h
  have := popLoop_fst_mem relevant q.reverse x h
  simpa using this

theorem drawValid_snd_mem (relevant q : List Sentence) (y : Sentence)
    (h : y ∈ (drawValid relevant q).2) : y ∈ q := by
  unfold drawValid at h
  simp only at h
  have := popLoop_snd_mem relevant q.reverse y (by simpa using h)
  simpa using this

theorem mem_any_id (relevant : List Sentence) (x : Sentence)
    (hx : x ∈ relevant) :
    relevant.any (fun r => r.id = x.id) = true := by
  rw [List.any_eq_true]
  exact ⟨x, hx, by simp⟩

theorem getNextSentence_pop (ρ : Nat → Nat) (sents : List Sentence)
    (f : Focus) (q0 : List Sentence) (x : Sentence) (lastId : Option Nat)
    (c : Nat) (hN : 1 < (sents.filter (matchesFocus f)).length)
    (hx : x ∈ sents.filter (matchesFocus f)) :
    getNextSentence ρ sents f ⟨q0 ++ [x], lastId, c⟩ =
      (some x, ⟨q0, some x.id, c⟩) := by
  have hany := mem_any_id _ x hx
  unfold getNextSentence
  simp only [if_neg (by omega : ¬(sents.filter (matchesFocus f)).length = 0),
    if_neg (by omega : ¬(sents.filter (matchesFocus f)).length = 1)]
  have hne : (q0 ++ [x]).isEmpty = false := by simp
  simp only [hne, Bool.false_eq_true, if_false,
    drawValid_concat _ q0 x hany]

theorem getNextSentence_refill (ρ : Nat → Nat) (sents : List Sentence)
    (f : Focus) (lastId : Option Nat) (c : Nat) (q0 : List Sentence)
    (x : Sentence) (hN : 1 < (sents.filter (matchesFocus f)).length)
    (hQ : (refillQueue ρ c lastId (sents.filter (matchesFocus f))).1 =
      q0 ++ [x]) :
    getNextSentence ρ sents f ⟨[], lastId, c⟩ =
      (some x, ⟨q0, some x.id,
        (refillQueue ρ c lastId (sents.filter (matchesFocus f))).2⟩) := by
  have hperm := refillQueue_fst_perm ρ c lastId (sents.filter (matchesFocus f))
  have hx : x ∈ sents.filter (matchesFocus f) :=
    hperm.mem_iff.mp (by rw [hQ]; simp)
  have hany := mem_any_id _ x hx
  unfold getNextSentence
  simp only [if_neg (by omega : ¬(sents.filter (matchesFocus f)).length = 0),
    if_neg (by omega : ¬(sents.filter (matchesFocus f)).length = 1)]
  simp only [List.isEmpty_nil, if_true, hQ,
    drawValid_concat _ q0 x hany]

theorem selectN_drain (ρ : Nat → Nat) (sents : List Sentence) (f : Focus)
    (hN : 1 < (sents.filter (matchesFocus f)).length) :
    ∀ (q : List Sentence) (lastId : Option Nat) (c : Nat),
      (∀ y ∈ q, y ∈ sents.filter (matchesFocus f)) →
      (selectN ρ sents f q.length ⟨q, lastId, c⟩).1 = q.reverse := by
  intro q
  induction q using List.reverseRecOn with
  | nil => intro lastId c _; simp [selectN]
  | append_singleton q0 x ih =>
    intro lastId c hsub
    have hx : x ∈ sents.filter (matchesFocus f) := hsub x (by simp)
    have hlen : (q0 ++ [x]).length = q0.length + 1 := by simp
    rw [hlen]
    have hstep := getNextSentence_pop ρ sents f q0 x lastId c hN hx
    simp only [selectN, hstep]
    have ih2 := ih (some x.id) c (fun y hy => hsub y (by simp [hy]))
    simp [ih2]

/-- C1: Coverage. For every non-empty set of sentences matching the active
filter, of size N greater than 1, calling getNextSentence N times starting
with an empty bag (the start of a cycle) and with no mutation of the
sentence set in between returns each relevant sentence exactly once, in
some order: the outputs are a permutation of the relevant list. -/
theorem selectNext_coverage (ρ : Nat → Nat) (sents : List Sentence)
    (f : Focus) (st : SelState) (hq : st.queue = [])
    (hN : 1 < (sents.filter (matchesFocus f)).length) :
    (selectN ρ sents f (sents.filter (matchesFocus f)).length st).1 ~
      sents.filter (matchesFocus f) := by
  obtain ⟨q, lastId, c⟩ := st
  simp only at hq
  subst hq
  have hperm := refillQueue_fst_perm ρ c lastId (sents.filter (matchesFocus f))
  have hQlen : (refillQueue ρ c lastId (sents.filter (matchesFocus f))).1.length
      = (sents.filter (matchesFocus f)).length := hperm.length_eq
  rcases List.eq_nil_or_concat
      (refillQueue ρ c lastId (sents.filter (matchesFocus f))).1 with hnil | ⟨q0, x, hQ⟩
  · rw [hnil] at hQlen
    simp at hQlen
    omega
  rw [List.concat_eq_append] at hQ
  have hstep := getNextSentence_refill ρ sents f lastId c q0 x hN hQ
  have hlen1 : (sents.filter (matchesFocus f)).length = q0.length + 1 := by
    rw [← hQlen, hQ]
    simp
  rw [hlen1]
  simp only [selectN, hstep]
  have hsub : ∀ y ∈ q0, y ∈ sents.filter (matchesFocus f) := by
    intro y hy
    exact hperm.mem_iff.mp (by rw [hQ]; exact List.mem_append_left _ hy)
  have hdrain := selectN_drain ρ sents f hN q0 (some x.id)
    ((refillQueue ρ c lastId (sents.filter (matchesFocus f))).2) hsub
  simp only [hdrain]
  have hrev : x :: q0.reverse = (q0 ++ [x]).reverse := by simp
  rw [hrev, ← hQ]
  exact (List.reverse_perm _).trans hperm

/-- Witness for C1 at a concrete three-sentence set under the all filter. -/
theorem selectNext_coverage_witness :
    (⟨[], none, 0⟩ : SelState).queue = [] ∧
    1 < ([sentA, sentB, sentC].filter (matchesFocus Focus.all)).length ∧
    (selectN rhoZ [sentA, sentB, sentC] Focus.all
      ([sentA, sentB, sentC].filter (matchesFocus Focus.all)).length
      ⟨[], none, 0⟩).1 ~ [sentA, sentB, sentC].filter (matchesFocus Focus.all) :=
  ⟨rfl, by decide,
    selectNext_coverage rhoZ [sentA, sentB, sentC] Focus.all
      ⟨[], none, 0⟩ rfl (by decide)⟩

theorem antiRepeatSwap_getLast_ne (lid : Nat) (F : List Sentence)
    (h2 : 1 < F.length) (hnd : (F.map Sentence.id).Nodup) (x : Sentence)
    (hx : (antiRepeatSwap (some lid) F).getLast? = some x) : x.id ≠ lid := by
  have hFne : F ≠ [] := by
    intro h
    rw [h] at h2
    simp at h2
  simp only [antiRepeatSwap, if_pos h2] at hx
  obtain ⟨nu, hnu⟩ : ∃ nu, F.getLast? = some nu := by
    cases h : F.getLast? with
    | none => exact absurd (List.getLast?_eq_none_iff.mp h) hFne
    | some nu => exact ⟨nu, rfl⟩
  rw [hnu] at hx
  simp only at hx
  have h0 : 0 < F.length := by omega
  have hn1 : F.length - 1 < F.length := by omega
  by_cases hid : nu.id = lid
  · rw [if_pos hid] at hx
    have hswap : swapL F (F.length - 1) 0 =
        (F.set (F.length - 1) F[0]).set 0 F[F.length - 1] := by
      simp [swapL, List.getElem?_eq_getElem, hn1, h0]
    rw [hswap] at hx
    rw [List.getLast?_eq_getElem?] at hx
    have hlen : ((F.set (F.length - 1) F[0]).set 0 F[F.length - 1]).length
        = F.length := by simp
    rw [hlen] at hx
    have hne0 : F.length - 1 ≠ 0 := by omega
    have hget : ((F.set (F.length - 1) F[0]).set 0
        F[F.length - 1])[F.length - 1]? = some F[0] := by
      rw [List.getElem?_eq_getElem (by simpa using hn1)]
      rw [List.getElem_set_ne (by omega)]
      rw [List.getElem_set_self (by simpa using hn1)]
    rw [hget] at hx
    have hxF : x = F[0] := by
      injection hx with h
      exact h.symm
    have hnuF : nu = F[F.length - 1] := by
      rw [List.getLast?_eq_getElem?, List.getElem?_eq_getElem hn1] at hnu
      injection hnu with h
      exact h.symm
    subst hxF
    intro hcon
    have hmap : (F.map Sentence.id).get ⟨0, by simpa using h0⟩ =
        (F.map Sentence.id).get ⟨F.length - 1, by simpa using hn1⟩ := by
      simp only [List.get_eq_getElem, List.getElem_map]
      rw [hcon, ← hid, hnuF]
    have hfin := hnd.get_inj_iff.mp hmap
    have h01 : (0 : Nat) = F.length - 1 := congrArg Fin.val hfin
    omega
  · rw [if_neg hid] at hx
    rw [hnu] at hx
    have hxnu : x = nu := by
      injection hx with h
      exact h.symm
    rw [hxnu]
    exact hid

/-- C2: No immediate repeat. At a refill boundary (the bag is empty when
the call arrives), with more than one relevant sentence and with distinct
sentence ids, the sentence returned from the fresh cycle never carries
lastShownId. -/
theorem refill_no_immediate_repeat (ρ : Nat → Nat) (sents : List Sentence)
    (f : Focus) (lastId c : Nat) (s : Sentence)
    (hN : 1 < (sents.filter (matchesFocus f)).length)
    (hnd : ((sents.filter (matchesFocus f)).map Sentence.id).Nodup)
    (hres : (getNextSentence ρ sents f ⟨[], some lastId, c⟩).1 = some s) :
    s.id ≠ lastId := by
  have hperm := refillQueue_fst_perm ρ c (some lastId)
    (sents.filter (matchesFocus f))
  have hQlen : (refillQueue ρ c (some lastId)
      (sents.filter (matchesFocus f))).1.length
      = (sents.filter (matchesFocus f)).length := hperm.length_eq
  rcases List.eq_nil_or_concat
      (refillQueue ρ c (some lastId) (sents.filter (matchesFocus f))).1
      with hnil | ⟨q0, x, hQ⟩
  · rw [hnil] at hQlen
    simp at hQlen
    omega
  rw [List.concat_eq_append] at hQ
  have hstep := getNextSentence_refill ρ sents f (some lastId) c q0 x hN hQ
  rw [hstep] at hres
  have hsx : s = x := by
    injection hres with h
    exact h.symm
  subst hsx
  have hxlast : (refillQueue ρ c (some lastId)
      (sents.filter (matchesFocus f))).1.getLast? = some s := by
    rw [hQ]
    exact List.getLast?_concat _
  have hF : (refillQueue ρ c (some lastId)
      (sents.filter (matchesFocus f))).1 =
      antiRepeatSwap (some lastId)
        (fisherYates ρ c (sents.filter (matchesFocus f))).1 := rfl
  rw [hF] at hxlast
  have hFperm := fisherYates_fst_perm ρ c (sents.filter (matchesFocus f))
  have hFlen : 1 < (fisherYates ρ c (sents.filter (matchesFocus f))).1.length := by
    rw [hFperm.length_eq]
    omega
  have hFnd : ((fisherYates ρ c (sents.filter (matchesFocus f))).1.map
      Sentence.id).Nodup :=
    (List.Perm.nodup_iff (hFperm.map Sentence.id)).mpr hnd
  exact antiRepeatSwap_getLast_ne lastId _ hFlen hFnd s hxlast

/-- Witness for C2 at a concrete input where the guard actually fires:
with lastShownId equal to 1 the all-zero stream shuffles sentence A into
the draw position, and the boundary swap replaces it. -/
theorem refill_no_immediate_repeat_witness :
    1 < ([sentA, sentB, sentC].filter (matchesFocus Focus.all)).length ∧
    (getNextSentence rhoZ [sentA, sentB, sentC] Focus.all
      ⟨[], some 1, 0⟩).1 = some sentB ∧
    sentB.id ≠ 1 :=
  ⟨by decide, by decide,
    refill_no_immediate_repeat rhoZ [sentA, sentB, sentC] Focus.all 1 0
      sentB (by decide) (by decide) (by decide)⟩

theorem getNextSentence_none (ρ : Nat → Nat) (sents : List Sentence)
    (f : Focus) (st : SelState)
    (h : (sents.filter (matchesFocus f)).length = 0) :
    getNextSentence ρ sents f st = (none, st) := by
  unfold getNextSentence
  simp only [if_pos h]

theorem getNextSentence_single (ρ : Nat → Nat) (sents : List Sentence)
    (f : Focus) (st : SelState)
    (h : (sents.filter (matchesFocus f)).length = 1) :
    getNextSentence ρ sents f st = ((sents.filter (matchesFocus f)).head?, st) := by
  unfold getNextSentence
  simp only [if_neg (by omega : ¬(sents.filter (matchesFocus f)).length = 0),
    if_pos h]

theorem getNextSentence_main_eq (ρ : Nat → Nat) (sents : List Sentence)
    (f : Focus) (st : SelState)
    (h0 : ¬(sents.filter (matchesFocus f)).length = 0)
    (h1 : ¬(sents.filter (matchesFocus f)).length = 1) :
    getNextSentence ρ sents f st =
      (let q0 := if st.queue.isEmpty
           then refillQueue ρ st.ctr st.lastShownId (sents.filter (matchesFocus f))
           else (st.queue, st.ctr)
       match drawValid (sents.filter (matchesFocus f)) q0.1 with
       | (some s, q1) => (some s, ⟨q1, some s.id, q0.2⟩)
       | (none, _) =>
         let q2 := refillQueue ρ q0.2 st.lastShownId (sents.filter (matchesFocus f))
         match drawValid (sents.filter (matchesFocus f)) q2.1 with
         | (some s, q3) => (some s, ⟨q3, some s.id, q2.2⟩)
         | (none, q3) => (none, ⟨q3, st.lastShownId, q2.2⟩)) := by
  unfold getNextSentence
  simp only [if_neg h0, if_neg h1]

theorem getNextSentence_matches (ρ : Nat → Nat) (sents : List Sentence)
    (f : Focus) (st : SelState)
    (hq : ∀ x ∈ st.queue, matchesFocus f x = true) :
    (∀ s, (getNextSentence ρ sents f st).1 = some s →
      matchesFocus f s = true) ∧
    (∀ y ∈ (getNextSentence ρ sents f st).2.queue,
      matchesFocus f y = true) := by
  have hrel : ∀ x ∈ sents.filter (matchesFocus f), matchesFocus f x = true := by
    intro x hx
    exact (List.mem_filter.mp hx).2
  by_cases h0 : (sents.filter (matchesFocus f)).length = 0
  · rw [getNextSentence_none ρ sents f st h0]
    refine ⟨fun s h => by simp at h, hq⟩
  by_cases h1 : (sents.filter (matchesFocus f)).length = 1
  · rw [getNextSentence_single ρ sents f st h1]
    refine ⟨fun s h => ?_, hq⟩
    simp only at h
    cases hr : sents.filter (matchesFocus f) with
    | nil => rw [hr] at h; simp at h
    | cons a t =>
      rw [hr] at h
      simp only [List.head?_cons, Option.some.injEq] at h
      subst h
      exact hrel _ (by rw [hr]; exact List.mem_cons_self _ _)
  rw [getNextSentence_main_eq ρ sents f st h0 h1]
  set Q := (if st.queue.isEmpty
      then refillQueue ρ st.ctr st.lastShownId (sents.filter (matchesFocus f))
      else (st.queue, st.ctr)) with hQdef
  have hq0 : ∀ y ∈ Q.1, matchesFocus f y = true := by
    rw [hQdef]
    by_cases he : st.queue.isEmpty
    · simp only [if_pos he]
      intro y hy
      exact hrel y ((refillQueue_fst_perm ρ st.ctr st.lastShownId
        (sents.filter (matchesFocus f))).mem_iff.mp hy)
    · simp only [if_neg he]
      exact hq
  simp only []
  rcases hd : drawValid (sents.filter (matchesFocus f)) Q.1 with ⟨os, q1⟩
  cases os with
  | some s =>
    simp only [hd]
    have hs : matchesFocus f s = true := by
      have hfst : (drawValid (sents.filter (matchesFocus f)) Q.1).1 = some s := by
        rw [hd]
      exact hq0 s (drawValid_fst_mem _ _ s hfst)
    refine ⟨fun t ht => ?_, fun y hy => ?_⟩
    · simp only [Option.some.injEq] at ht
      subst ht
      exact hs
    · simp only at hy
      have hsnd : y ∈ (drawValid (sents.filter (matchesFocus f)) Q.1).2 := by
        rw [hd]
        exact hy
      exact hq0 y (drawValid_snd_mem _ _ y hsnd)
  | none =>
    simp only [hd]
    set R := refillQueue ρ Q.2 st.lastShownId (sents.filter (matchesFocus f))
      with hRdef
    have hq2 : ∀ y ∈ R.1, matchesFocus f y = true := by
      intro y hy
      exact hrel y ((refillQueue_fst_perm _ _ _ _).mem_iff.mp hy)
    rcases hd2 : drawValid (sents.filter (matchesFocus f)) R.1 with ⟨os2, q3⟩
    cases os2 with
    | some s =>
      simp only [hd2]
      have hs : matchesFocus f s = true := by
        have hfst : (drawValid (sents.filter (matchesFocus f)) R.1).1 = some s := by
          rw [hd2]
        exact hq2 s (drawValid_fst_mem _ _ s hfst)
      refine ⟨fun t ht => ?_, fun y hy => ?_⟩
      · simp only [Option.some.injEq] at ht
        subst ht
        exact hs
      · simp only at hy
        have hsnd : y ∈ (drawValid (sents.filter (matchesFocus f)) R.1).2 := by
          rw [hd2]
          exact hy
        exact hq2 y (drawValid_snd_mem _ _ y hsnd)
    | none =>
      simp only [hd2]
      refine ⟨fun t ht => by simp at ht, fun y hy => ?_⟩
      simp only at hy
      have hsnd : y ∈ (drawValid (sents.filter (matchesFocus f)) R.1).2 := by
        rw [hd2]
        exact hy
      exact hq2 y (drawValid_snd_mem _ _ y hsnd)

theorem selectN_matches (ρ : Nat → Nat) (sents : List Sentence) (f : Focus) :
    ∀ (k : Nat) (st : SelState),
      (∀ x ∈ st.queue, matchesFocus f x = true) →
      ∀ s ∈ (selectN ρ sents f k st).1, matchesFocus f s = true := by
  intro k
  induction k with
  | zero => intro st hq s hs; simp [selectN] at hs
  | succ n ih =>
    intro st hq s hs
    have hm := getNextSentence_matches ρ sents f st hq
    simp only [selectN] at hs
    rcases hr : (getNextSentence ρ sents f st).1 with _ | t
    · rw [hr] at hs
      simp only at hs
      exact ih (getNextSentence ρ sents f st).2 hm.2 s hs
    · rw [hr] at hs
      simp only [List.mem_cons] at hs
      rcases hs with rfl | hs
      · exact hm.1 s hr
      · exact ih (getNextSentence ρ sents f st).2 hm.2 s hs

/-- C4: Filter isolation. After handleFocusChange commits a new filter X,
the bag is cleared entirely, and every sentence any number of subsequent
getNextSentence calls returns matches X, even though the bag was non-empty
under the old filter at the time of the change. -/
theorem filter_isolation (ρ : Nat → Nat) (st0 : AppState) (X : Focus)
    (hne : ¬X = st0.sessionFocusId) (k : Nat) :
    (handleFocusChange st0 X).sel.queue = [] ∧
    (handleFocusChange st0 X).sessionFocusId = X ∧
    ∀ s ∈ (selectN ρ (handleFocusChange st0 X).sentences X k
      (handleFocusChange st0 X).sel).1, matchesFocus X s = true := by
  have he : handleFocusChange st0 X =
      { st0 with sessionFocusId := X,
                 sel := { st0.sel with queue := [] } } := by
    unfold handleFocusChange
    rw [if_neg hne]
  rw [he]
  refine ⟨rfl, rfl, ?_⟩
  exact selectN_matches ρ st0.sentences X k { st0.sel with queue := [] }
    (by intro x hx; simp at hx)

/-- Witness for C4: switching the concrete mid-cycle state from the all
filter to category 5 while sentence B is still in the bag. -/
theorem filter_isolation_witness :
    ¬Focus.cat 5 = stC6.sessionFocusId ∧
    ((handleFocusChange stC6 (Focus.cat 5)).sel.queue = [] ∧
     (handleFocusChange stC6 (Focus.cat 5)).sessionFocusId = Focus.cat 5 ∧
     ∀ s ∈ (selectN rhoZ (handleFocusChange stC6 (Focus.cat 5)).sentences
       (Focus.cat 5) 3 (handleFocusChange stC6 (Focus.cat 5)).sel).1,
       matchesFocus (Focus.cat 5) s = true) :=
  ⟨by decide, filter_isolation rhoZ stC6 (Focus.cat 5) (by decide) 3⟩

theorem getNextLimit_pos (ρ : Nat → Nat) (c : Nat) (cfg : Config) :
    1 ≤ (getNextLimit ρ c cfg).1 := by
  cases cfg with
  | rnd => simp [getNextLimit]; omega
  | fixed n =>
    simp only [getNextLimit]
    by_cases h : 0 < n
    · rw [if_pos h]; omega
    · rw [if_neg h]; omega

/-- C3: Terminal transition in countdown mode. From currentCount 3, three
accepted ticks yield the counts 2, 1 and then a freshly drawn limit; the
selector is consulted exactly on the third tick and never earlier, and
the number is reseeded with the new limit rather than 0, so the display
never shows 0. -/
theorem countdown_terminal_transition (ρ : Nat → Nat) (st : AppState)
    (hmode : st.counterMode = Mode.down) (hnum : st.currentNumber = 3)
    (hanim : st.isAnimating = false) (hstats : st.showStats = false)
    (hmanage : st.showManage = false) :
    (tick ρ st).currentNumber = 2 ∧
    (tick ρ (tick ρ st)).currentNumber = 1 ∧
    (tick ρ st).currentSentence = st.currentSentence ∧
    (tick ρ (tick ρ st)).currentSentence = st.currentSentence ∧
    (tick ρ st).sel = st.sel ∧
    (tick ρ (tick ρ st)).sel = st.sel ∧
    (tick ρ (tick ρ (tick ρ st))).currentNumber =
      (getNextLimit ρ st.sel.ctr st.countdownConfig).1 ∧
    (tick ρ (tick ρ (tick ρ st))).randomLimit =
      (getNextLimit ρ st.sel.ctr st.countdownConfig).1 ∧
    (tick ρ (tick ρ (tick ρ st))).currentSentence =
      (getNextSentence ρ st.sentences st.sessionFocusId
        { st.sel with ctr := (getNextLimit ρ st.sel.ctr st.countdownConfig).2 }).1 ∧
    (tick ρ (tick ρ (tick ρ st))).sel =
      (getNextSentence ρ st.sentences st.sessionFocusId
        { st.sel with ctr := (getNextLimit ρ st.sel.ctr st.countdownConfig).2 }).2 ∧
    1 ≤ (tick ρ (tick ρ (tick ρ st))).currentNumber := by
  have hg : (st.isAnimating || st.showStats || st.showManage) = false := by
    rw [hanim, hstats, hmanage]
    rfl
  have e1 : tick ρ st =
      { st with
        currentNumber := 2
        statsLog := (match st.currentSentence with
          | some s => st.statsLog ++ [s.id]
          | none => st.statsLog)
        isAnimating := false } := by
    unfold tick tickSync timeoutBody
    rw [hg]
    simp [hmode, hnum]
  rw [e1]
  have e2 : tick ρ { st with
      currentNumber := 2
      statsLog := (match st.currentSentence with
        | some s => st.statsLog ++ [s.id]
        | none => st.statsLog)
      isAnimating := false } =
      { st with
        currentNumber := 1
        statsLog := (match st.currentSentence with
          | some s => (st.statsLog ++ [s.id]) ++ [s.id]
          | none => st.statsLog)
        isAnimating := false } := by
    unfold tick tickSync timeoutBody
    simp [hmode, hstats, hmanage]
    cases st.currentSentence <;> simp
  rw [e2]
  refine ⟨rfl, rfl, rfl, rfl, rfl, rfl, ?_⟩
  have e3 : tick ρ { st with
      currentNumber := 1
      statsLog := (match st.currentSentence with
        | some s => (st.statsLog ++ [s.id]) ++ [s.id]
        | none => st.statsLog)
      isAnimating := false } =
      { st with
        currentNumber := (getNextLimit ρ st.sel.ctr st.countdownConfig).1
        randomLimit := (getNextLimit ρ st.sel.ctr st.countdownConfig).1
        currentSentence := (getNextSentence ρ st.sentences st.sessionFocusId
          { st.sel with ctr := (getNextLimit ρ st.sel.ctr st.countdownConfig).2 }).1
        sel := (getNextSentence ρ st.sentences st.sessionFocusId
          { st.sel with ctr := (getNextLimit ρ st.sel.ctr st.countdownConfig).2 }).2
        statsLog := (match st.currentSentence with
          | some s => ((st.statsLog ++ [s.id]) ++ [s.id]) ++ [s.id]
          | none => st.statsLog)
        isAnimating := false } := by
    unfold tick tickSync timeoutBody
    simp [hmode, hstats, hmanage]
    cases st.currentSentence <;> simp
  rw [e3]
  refine ⟨rfl, rfl, rfl, rfl, ?_⟩
  exact getNextLimit_pos ρ st.sel.ctr st.countdownConfig

/-- Witness for C3 at the concrete mid-cycle state, unlocked, with the
count at 3. -/
theorem countdown_terminal_transition_witness :
    ({ stC6 with isAnimating := false, currentNumber := 3 }
        : AppState).counterMode = Mode.down ∧
    ({ stC6 with isAnimating := false, currentNumber := 3 }
        : AppState).currentNumber = 3 ∧
    ((tick rhoZ { stC6 with isAnimating := false, currentNumber := 3 }).currentNumber = 2 ∧
     (tick rhoZ (tick rhoZ { stC6 with isAnimating := false, currentNumber := 3 })).currentNumber = 1 ∧
     (tick rhoZ { stC6 with isAnimating := false, currentNumber := 3 }).currentSentence =
       ({ stC6 with isAnimating := false, currentNumber := 3 } : AppState).currentSentence ∧
     (tick rhoZ (tick rhoZ { stC6 with isAnimating := false, currentNumber := 3 })).currentSentence =
       ({ stC6 with isAnimating := false, currentNumber := 3 } : AppState).currentSentence ∧
     (tick rhoZ { stC6 with isAnimating := false, currentNumber := 3 }).sel =
       ({ stC6 with isAnimating := false, currentNumber := 3 } : AppState).sel ∧
     (tick rhoZ (tick rhoZ { stC6 with isAnimating := false, currentNumber := 3 })).sel =
       ({ stC6 with isAnimating := false, currentNumber := 3 } : AppState).sel ∧
     (tick rhoZ (tick rhoZ (tick rhoZ { stC6 with isAnimating := false, currentNumber := 3 }))).currentNumber =
       (getNextLimit rhoZ ({ stC6 with isAnimating := false, currentNumber := 3 } : AppState).sel.ctr
         ({ stC6 with isAnimating := false, currentNumber := 3 } : AppState).countdownConfig).1 ∧
     (tick rhoZ (tick rhoZ (tick rhoZ { stC6 with isAnimating := false, currentNumber := 3 }))).randomLimit =
       (getNextLimit rhoZ ({ stC6 with isAnimating := false, currentNumber := 3 } : AppState).sel.ctr
         ({ stC6 with isAnimating := false, currentNumber := 3 } : AppState).countdownConfig).1 ∧
     (tick rhoZ (tick rhoZ (tick rhoZ { stC6 with isAnimating := false, currentNumber := 3 }))).currentSentence =
       (getNextSentence rhoZ
         ({ stC6 with isAnimating := false, currentNumber := 3 } : AppState).sentences
         ({ stC6 with isAnimating := false, currentNumber := 3 } : AppState).sessionFocusId
         { ({ stC6 with isAnimating := false, currentNumber := 3 } : AppState).sel with
           ctr := (getNextLimit rhoZ
             ({ stC6 with isAnimating := false, currentNumber := 3 } : AppState).sel.ctr
             ({ stC6 with isAnimating := false, currentNumber := 3 } : AppState).countdownConfig).2 }).1 ∧
     (tick rhoZ (tick rhoZ (tick rhoZ { stC6 with isAnimating := false, currentNumber := 3 }))).sel =
       (getNextSentence rhoZ
         ({ stC6 with isAnimating := false, currentNumber := 3 } : AppState).sentences
         ({ stC6 with isAnimating := false, currentNumber := 3 } : AppState).sessionFocusId
         { ({ stC6 with isAnimating := false, currentNumber := 3 } : AppState).sel with
           ctr := (getNextLimit rhoZ
             ({ stC6 with isAnimating := false, currentNumber := 3 } : AppState).sel.ctr
             ({ stC6 with isAnimating := false, currentNumber := 3 } : AppState).countdownConfig).2 }).2 ∧
     1 ≤ (tick rhoZ (tick rhoZ (tick rhoZ { stC6 with isAnimating := false, currentNumber := 3 }))).currentNumber) :=
  ⟨rfl, rfl,
    countdown_terminal_transition rhoZ
      { stC6 with isAnimating := false, currentNumber := 3 }
      rfl rfl rfl rfl rfl⟩

/-- C5: Lock correctness. With the lock free and the overlays closed, a
second raw tick arriving inside the cooldown window (after the first
ticks synchronous phase, before its timeout body) is dropped entirely:
it changes nothing, the run of both ticks ends in exactly the state of a
single accepted tick, and exactly one stats increment was recorded. -/
theorem interaction_lock_correctness (ρ : Nat → Nat) (st : AppState)
    (s : Sentence) (hanim : st.isAnimating = false)
    (hstats : st.showStats = false) (hmanage : st.showManage = false)
    (hcs : st.currentSentence = some s) :
    tickSync (tickSync st) = tickSync st ∧
    timeoutBody ρ (tickSync (tickSync st)) = timeoutBody ρ (tickSync st) ∧
    (tickSync (tickSync st)).statsLog = st.statsLog ++ [s.id] := by
  have hg : (st.isAnimating || st.showStats || st.showManage) = false := by
    rw [hanim, hstats, hmanage]
    rfl
  have h1 : tickSync st = { st with
      statsLog := st.statsLog ++ [s.id]
      isAnimating := true } := by
    unfold tickSync
    rw [hg]
    simp [hcs]
  have h2 : tickSync (tickSync st) = tickSync st := by
    rw [h1]
    conv_lhs => unfold tickSync
    simp
  exact ⟨h2, by rw [h2], by rw [h2, h1]⟩

/-- Witness for C5 at the concrete unlocked state showing sentence A. -/
theorem interaction_lock_correctness_witness :
    ({ stC6 with isAnimating := false } : AppState).isAnimating = false ∧
    ({ stC6 with isAnimating := false } : AppState).currentSentence = some sentA ∧
    (tickSync (tickSync { stC6 with isAnimating := false }) =
      tickSync { stC6 with isAnimating := false } ∧
     timeoutBody rhoZ (tickSync (tickSync { stC6 with isAnimating := false })) =
      timeoutBody rhoZ (tickSync { stC6 with isAnimating := false }) ∧
     (tickSync (tickSync { stC6 with isAnimating := false })).statsLog =
      ({ stC6 with isAnimating := false } : AppState).statsLog ++ [sentA.id]) :=
  ⟨rfl, rfl,
    interaction_lock_correctness rhoZ { stC6 with isAnimating := false }
      sentA rfl rfl rfl rfl⟩

theorem tick_empty_invariant (ρ : Nat → Nat) (st : AppState)
    (hcs : st.currentSentence = none)
    (hemp : st.sentences.filter (matchesFocus st.sessionFocusId) = []) :
    (tick ρ st).currentSentence = none ∧
    (tick ρ st).sentences = st.sentences ∧
    (tick ρ st).sessionFocusId = st.sessionFocusId := by
  unfold tick
  by_cases hg : (st.isAnimating || st.showStats || st.showManage) = true
  · rw [if_pos hg]
    exact ⟨hcs, rfl, rfl⟩
  · rw [if_neg hg]
    unfold tickSync
    rw [if_neg hg]
    unfold timeoutBody
    cases hm : st.counterMode with
    | down =>
      by_cases hv : st.currentNumber ≤ 1
      · have hnone := getNextSentence_none ρ st.sentences st.sessionFocusId
          { ({ st with
              statsLog := (match st.currentSentence with
                | some s => st.statsLog ++ [s.id]
                | none => st.statsLog)
              isAnimating := true } : AppState).sel with
            ctr := (getNextLimit ρ st.sel.ctr st.countdownConfig).2 }
          (by rw [hemp]; rfl)
        simp [hm, hv, hcs, hnone]
      · simp [hm, hv, hcs]
    | up => simp [hm, hcs]

theorem tickN_empty (ρ : Nat → Nat) :
    ∀ (k : Nat) (st : AppState), st.currentSentence = none →
      st.sentences.filter (matchesFocus st.sessionFocusId) = [] →
      (tickN ρ k st).currentSentence = none := by
  intro k
  induction k with
  | zero => intro st hcs _; exact hcs
  | succ n ih =>
    intro st hcs hemp
    simp only [tickN]
    have h := tick_empty_invariant ρ st hcs hemp
    exact ih (tick ρ st) h.1 (by rw [h.2.1, h.2.2]; exact hemp)

/-- C9: Idempotent empty state. When no sentence matches the active
filter, getNextSentence returns none with the state untouched (a total
function, not a failure), and currentSentence stays none across any
number of ticks. -/
theorem empty_filter_idempotent (ρ : Nat → Nat) (st : AppState) (k : Nat)
    (hcs : st.currentSentence = none)
    (hemp : st.sentences.filter (matchesFocus st.sessionFocusId) = []) :
    (tickN ρ k st).currentSentence = none ∧
    getNextSentence ρ st.sentences st.sessionFocusId st.sel =
      (none, st.sel) := by
  refine ⟨tickN_empty ρ k st hcs hemp, ?_⟩
  exact getNextSentence_none ρ st.sentences st.sessionFocusId st.sel
    (by rw [hemp]; rfl)

/-- Witness for C9: the concrete state under category 9, which no
sentence carries, ticked five times. -/
theorem empty_filter_idempotent_witness :
    ({ stC6 with currentSentence := none, sessionFocusId := Focus.cat 9 }
        : AppState).currentSentence = none ∧
    ({ stC6 with currentSentence := none, sessionFocusId := Focus.cat 9 }
        : AppState).sentences.filter (matchesFocus (Focus.cat 9)) = [] ∧
    ((tickN rhoZ 5 { stC6 with currentSentence := none, sessionFocusId := Focus.cat 9 }).currentSentence = none ∧
     getNextSentence rhoZ
       ({ stC6 with currentSentence := none, sessionFocusId := Focus.cat 9 }
         : AppState).sentences (Focus.cat 9)
       ({ stC6 with currentSentence := none, sessionFocusId := Focus.cat 9 }
         : AppState).sel =
       (none, ({ stC6 with currentSentence := none, sessionFocusId := Focus.cat 9 } : AppState).sel)) :=
  ⟨rfl, by decide,
    empty_filter_idempotent rhoZ
      { stC6 with currentSentence := none, sessionFocusId := Focus.cat 9 }
      5 rfl (by decide)⟩

/-- C10: Configuration-error normalization. A zero or negative fixed
cycle length is normalized to the safe default 3; the random
configuration computes floor(random times 7) plus 1, which always lies
in 1..7, and every value of 1..7 is attainable. -/
theorem cycle_length_normalization (ρ : Nat → Nat) (c : Nat) :
    (∀ n : Int, n ≤ 0 → (getNextLimit ρ c (Config.fixed n)).1 = 3) ∧
    (getNextLimit ρ c Config.rnd).1 = ((ρ c % 7 : Nat) : Int) + 1 ∧
    (1 ≤ (getNextLimit ρ c Config.rnd).1 ∧
      (getNextLimit ρ c Config.rnd).1 ≤ 7) ∧
    (∀ k : Int, 1 ≤ k → k ≤ 7 →
      ∃ ρ2 : Nat → Nat, (getNextLimit ρ2 c Config.rnd).1 = k) := by
  refine ⟨?_, rfl, ⟨?_, ?_⟩, ?_⟩
  · intro n hn
    simp only [getNextLimit]
    rw [if_neg (by omega : ¬(0 : Int) < n)]
  · simp [getNextLimit]
    omega
  · simp only [getNextLimit]
    have h7 : ρ c % 7 < 7 := Nat.mod_lt _ (by omega)
    omega
  · intro k h1 h7
    refine ⟨fun _ => (k - 1).toNat, ?_⟩
    simp only [getNextLimit]
    have hlt : (k - 1).toNat < 7 := by omega
    rw [Nat.mod_eq_of_lt hlt]
    omega

/-- Witness for C10: the configured length minus two is normalized to 3,
and a concrete random draw lands in range. -/
theorem cycle_length_normalization_witness :
    (-2 : Int) ≤ 0 ∧
    (getNextLimit rhoZ 0 (Config.fixed (-2))).1 = 3 ∧
    (1 ≤ (getNextLimit rhoZ 0 Config.rnd).1 ∧
      (getNextLimit rhoZ 0 Config.rnd).1 ≤ 7) :=
  ⟨by decide, (cycle_length_normalization rhoZ 0).1 (-2) (by decide),
    (cycle_length_normalization rhoZ 0).2.2.1⟩

/-- C6 counterexample: at the concrete mid-cycle state with a transition
in flight, changing the cycle length to 5 keeps the old sentence on
screen, keeps the bag and lastShownId, and keeps the in-flight animation,
whereas the full resetCycle the claim demands would have drawn sentence B
from the bag. -/
theorem config_change_not_full_reset :
    (onConfigChange rhoZ stC6 (Config.fixed 5)).currentSentence = some sentA ∧
    (onConfigChange rhoZ stC6 (Config.fixed 5)).sel.queue = [sentB] ∧
    (onConfigChange rhoZ stC6 (Config.fixed 5)).sel.lastShownId = some 1 ∧
    (onConfigChange rhoZ stC6 (Config.fixed 5)).isAnimating = true ∧
    (resetCycle rhoZ Mode.down Focus.all
      { stC6 with countdownConfig := Config.fixed 5 }).currentSentence =
      some sentB ∧
    ¬sentA = sentB := by decide

/-- C6 as amended: a cycle-length configuration change updates the limit
only, with the same normalization as getNextLimit, reseeding the
displayed number (new limit in down mode, 1 in up mode) while the
sentence, the bag, lastShownId and any in-flight transition are all left
untouched; no selector call is made. -/
theorem config_change_limit_only (ρ : Nat → Nat) (st : AppState)
    (newCfg : Config) :
    (onConfigChange ρ st newCfg).currentSentence = st.currentSentence ∧
    (onConfigChange ρ st newCfg).sel.queue = st.sel.queue ∧
    (onConfigChange ρ st newCfg).sel.lastShownId = st.sel.lastShownId ∧
    (onConfigChange ρ st newCfg).isAnimating = st.isAnimating ∧
    (onConfigChange ρ st newCfg).countdownConfig = newCfg ∧
    (onConfigChange ρ st newCfg).randomLimit =
      (getNextLimit ρ st.sel.ctr newCfg).1 ∧
    (onConfigChange ρ st newCfg).currentNumber =
      (if st.counterMode = Mode.down
        then (getNextLimit ρ st.sel.ctr newCfg).1 else 1) := by
  cases newCfg with
  | rnd => simp [onConfigChange, getNextLimit]
  | fixed n => simp [onConfigChange, getNextLimit]

/-- C8 counterexample: with exactly one relevant sentence the call
succeeds yet lastShownId is left at its previous value instead of being
set to the id of the returned sentence. -/
theorem short_circuit_skips_lastShownId :
    (getNextSentence rhoZ [sentA] Focus.all ⟨[], some 9, 0⟩).1 = some sentA ∧
    ¬(getNextSentence rhoZ [sentA] Focus.all
        ⟨[], some 9, 0⟩).2.lastShownId = some sentA.id := by decide

/-- C8 as amended: every successful call that draws from the bag (two or
more relevant sentences) records lastShownId as the id of the returned
sentence; the single-sentence short-circuit instead returns its sentence
with the whole selector state, lastShownId included, unchanged. -/
theorem lastShownId_recording (ρ : Nat → Nat) (sents : List Sentence)
    (f : Focus) (st : SelState) :
    (∀ s st2, 1 < (sents.filter (matchesFocus f)).length →
      getNextSentence ρ sents f st = (some s, st2) →
      st2.lastShownId = some s.id) ∧
    ((sents.filter (matchesFocus f)).length = 1 →
      (getNextSentence ρ sents f st).2 = st) := by
  constructor
  · intro s st2 hN h
    rw [getNextSentence_main_eq ρ sents f st (by omega) (by omega)] at h
    simp only [] at h
    set Q := (if st.queue.isEmpty
        then refillQueue ρ st.ctr st.lastShownId (sents.filter (matchesFocus f))
        else (st.queue, st.ctr)) with hQdef
    rcases hd : drawValid (sents.filter (matchesFocus f)) Q.1 with ⟨os, q1⟩
    rw [hd] at h
    cases os with
    | some t =>
      simp only [Prod.mk.injEq, Option.some.injEq] at h
      rcases h with ⟨hts, hst⟩
      rw [← hst]
      rw [hts]
    | none =>
      simp only [] at h
      set R := refillQueue ρ Q.2 st.lastShownId
        (sents.filter (matchesFocus f)) with hRdef
      rcases hd2 : drawValid (sents.filter (matchesFocus f)) R.1 with ⟨os2, q3⟩
      rw [hd2] at h
      cases os2 with
      | some t =>
        simp only [Prod.mk.injEq, Option.some.injEq] at h
        rcases h with ⟨hts, hst⟩
        rw [← hst]
        rw [hts]
      | none => simp at h
  · intro h1
    rw [getNextSentence_single ρ sents f st h1]

/-- Witness for C8 as amended: two relevant sentences, a fresh bag, the
all-zero stream; the draw returns sentence A and records its id. -/
theorem lastShownId_recording_witness :
    1 < ([sentA, sentB].filter (matchesFocus Focus.all)).length ∧
    getNextSentence rhoZ [sentA, sentB] Focus.all ⟨[], none, 0⟩ =
      (some sentA, ⟨[sentB], some sentA.id, 1⟩) ∧
    ((⟨[sentB], some sentA.id, 1⟩ : SelState).lastShownId = some sentA.id) ∧
    ([sentA].filter (matchesFocus Focus.all)).length = 1 ∧
    (getNextSentence rhoZ [sentA] Focus.all ⟨[], some 9, 0⟩).2 =
      (⟨[], some 9, 0⟩ : SelState) :=
  ⟨by decide, by decide,
    (lastShownId_recording rhoZ [sentA, sentB] Focus.all ⟨[], none, 0⟩).1
      sentA ⟨[sentB], some sentA.id, 1⟩ (by decide) (by decide),
    by decide,
    (lastShownId_recording rhoZ [sentA] Focus.all ⟨[], some 9, 0⟩).2
      (by decide)⟩

/-- C7: the GLOBAL_TIME_TRACKER sentinel row is returned by getDailyStats
unfiltered, and therefore reaches the user-facing breakdown when the
refresh path stores that result directly, while the subscription
callback filter removes it. This exhibits the divergence on a concrete
daily_stats table that holds the sentinel row for today. -/
theorem sentinel_reaches_breakdown :
    (getDailyStats "2026-10-11"
      [⟨"2026-10-11", StatId.timeTracker, 120⟩,
       ⟨"2026-10-11", StatId.sent 1, 5⟩,
       ⟨"2026-10-10", StatId.sent 1, 2⟩]).any
      (fun r => r.sentence_id = StatId.timeTracker) = true ∧
    (statsList
      (getDailyStats "2026-10-11"
        [⟨"2026-10-11", StatId.timeTracker, 120⟩,
         ⟨"2026-10-11", StatId.sent 1, 5⟩,
         ⟨"2026-10-10", StatId.sent 1, 2⟩]) [sentA]).any
      (fun row => row.1 = StatId.timeTracker) = true ∧
    (cleanStats
      (getDailyStats "2026-10-11"
        [⟨"2026-10-11", StatId.timeTracker, 120⟩,
         ⟨"2026-10-11", StatId.sent 1, 5⟩,
         ⟨"2026-10-10", StatId.sent 1, 2⟩])).all
      (fun r => ¬r.sentence_id = StatId.timeTracker) = true := by decide
